import Mathlib

/-!
Shallow embedding of src/ArduinoRover/ArduinoRover.ino.

Modelling conventions:
* C `double`/`float` values are modelled as exact rationals (ℚ).  Every value
  the servo-smoothing code manipulates is an integer-valued float (targets are
  stored through `int _get_fork_pos`, and `current_servo` starts at the integer
  `FORK_MIN` and changes by ±1), and such integers are represented exactly by
  `float`/`double` on the target, so rational arithmetic coincides with the
  machine arithmetic on all reachable states; `smoothLoopQ` below keeps the
  rational-typed loop explicit and is related to the integer version.
* C `int` globals are modelled as `Int`; storing a `double` into an `int`
  truncates toward zero (`truncToInt`).
* `millis()` timestamps are modelled as unbounded naturals.  `millis()` is
  monotone over the modelled horizon, so the unsigned wraparound subtraction
  `millis() - _get_vel_time` coincides with truncated `Nat` subtraction.
* A poll of one TCP channel is abstracted as `Option ℚ`: `some d` means a
  client is attached and at least `sizeof(double)` = 8 bytes are buffered,
  and those 8 bytes decode (little-endian IEEE-754 binary64) to the value
  `d`; `none` means no client or fewer than 8 bytes, in which case the source
  consumes nothing.
-/

/-- Source: `#define FORK_MIN 128`. -/
def FORK_MIN : Int := 128

/-- Source: `#define FORK_MAX 180`. -/
def FORK_MAX : Int := 180

/-- C conversion of a floating-point value to `int`: truncation toward zero
(used for `_get_vel_vel = doubleConvert.num;`, `_get_ang_vel = ...`,
`_get_fork_pos = ...`). -/
def truncToInt (q : ℚ) : Int := if 0 ≤ q then ⌊q⌋ else ⌈q⌉

/-- Source `setServo`: clamps the commanded angle to `[FORK_MIN, FORK_MAX]`
(`dec = max(FORK_MIN, min(dec, FORK_MAX));`) and forwards it to
`servo3.setAngle`.  The returned value is the angle the hardware receives. -/
def setServo (dec : ℚ) : ℚ := max (FORK_MIN : ℚ) (min dec (FORK_MAX : ℚ))

/-- The blocking smoothing loop in `loop()`:

```
while(current_servo != servo_target){
  if(current_servo < servo_target){ current_servo += 1; }
  else if (current_servo > servo_target){ current_servo -= 1; }
  setServo(current_servo);
  delay(20);
}
```

specialised to integer positions (all reachable positions are integers, see
`smoothLoopQ` and the C9 theorem).  Returns the final `current_servo` and the
trace of hardware calls: for each iteration the angle passed to
`servo3.setAngle` (i.e. `setServo` applied to the new position) paired with
the `delay(20)` milliseconds that follow it. -/
def smoothLoop (c t : Int) : Int × List (ℚ × Nat) :=
  if h1 : c < t then
    let r := smoothLoop (c + 1) t
    (r.1, (setServo ((c + 1 : Int) : ℚ), 20) :: r.2)
  else if h2 : t < c then
    let r := smoothLoop (c - 1) t
    (r.1, (setServo ((c - 1 : Int) : ℚ), 20) :: r.2)
  else
    (c, [])
termination_by (t - c).natAbs
decreasing_by
  · omega
  · omega

/-- The same smoothing loop on rational (i.e. exact floating-point) state,
with explicit fuel: `none` means the `while` loop has not reached its exit
test `current_servo != servo_target` within `fuel` iterations. -/
def smoothLoopQ : Nat → ℚ → ℚ → Option (ℚ × List (ℚ × Nat))
  | 0, c, t => if c = t then some (c, []) else none
  | f + 1, c, t =>
    if c = t then some (c, [])
    else
      let c' := if c < t then c + 1 else c - 1
      match smoothLoopQ f c' t with
      | some r => some (r.1, (setServo c', 20) :: r.2)
      | none => none

/-- State of one velocity channel: the globals
`int _get_vel_vel; int _get_vel_time;` (resp. `_get_ang_vel`,
`_get_ang_time`). -/
structure VelChannel where
  vel : Int
  time : Nat
deriving DecidableEq

/-- Source `get_vel()`: if a client is present with at least 8 buffered bytes
(`msg = some d`), consume them, store the decoded double truncated into the
`int` global and record `millis()`; then, independently, zero the stored value
when more than 500 ms have elapsed since the last receipt; return the stored
value. -/
def get_vel (s : VelChannel) (msg : Option ℚ) (now : Nat) : VelChannel × Int :=
  let s1 : VelChannel :=
    match msg with
    | some d => ⟨truncToInt d, now⟩
    | none => s
  let s2 : VelChannel := if 500 < now - s1.time then ⟨0, s1.time⟩ else s1
  (s2, s2.vel)

/-- Source `get_ang_vel()`: textually identical to `get_vel()` up to the
names of its server and globals. -/
def get_ang_vel : VelChannel → Option ℚ → Nat → VelChannel × Int := get_vel

/-- State of the fork channel: the globals `int _get_fork_pos;` and
`bool fork_new;`. -/
structure ForkState where
  pos : Int
  forkNew : Bool
deriving DecidableEq

/-- Source `get_fork()`: on a complete 8-byte message, store the decoded
double truncated into the `int` global and set `fork_new = true`; always
return the stored position (there is no timeout branch). -/
def get_fork (s : ForkState) (msg : Option ℚ) : ForkState × Int :=
  match msg with
  | some d => (⟨truncToInt d, true⟩, truncToInt d)
  | none => (s, s.pos)

/-- Source `wheel_l = (2*lin_v)/9 - (17*ang_v)/18;` in
`vels_drive_wheels`. -/
def wheel_l (lin_v ang_v : ℚ) : ℚ := (2 * lin_v) / 9 - (17 * ang_v) / 18

/-- Source `wheel_r = (17*ang_v)/18 + (2*lin_v)/9;` in
`vels_drive_wheels`. -/
def wheel_r (lin_v ang_v : ℚ) : ℚ := (17 * ang_v) / 18 + (2 * lin_v) / 9

/-- Source `driveMotors(int l, int r)`: `M1.setDuty(-r); M2.setDuty(l);`.
Returns the duty pair `(M1, M2)`; per the source comment, M1 is the right
motor, reversed because it is oriented opposite. -/
def driveMotors (l r : Int) : Int × Int := (-r, l)

/-- Source `vels_drive_wheels`: computes the two wheel commands, scales both
by 10 and hands them to `driveMotors` (whose `int` parameters truncate the
floats toward zero). -/
def vels_drive_wheels (lin_v ang_v : ℚ) : Int × Int :=
  driveMotors (truncToInt (wheel_l lin_v ang_v * 10))
    (truncToInt (wheel_r lin_v ang_v * 10))

/-- The global state mutated by `loop()`: the three channel states plus
`float servo_target; float current_servo;` (integer-valued on all reachable
states, hence `Int`). -/
structure RoverState where
  velCh : VelChannel
  angCh : VelChannel
  forkCh : ForkState
  servoTarget : Int
  currentServo : Int
deriving DecidableEq

/-- The inputs consumed by one iteration of `loop()`: one poll result per
TCP channel and the current `millis()` value. -/
structure LoopInput where
  velMsg : Option ℚ
  angMsg : Option ℚ
  forkMsg : Option ℚ
  now : Nat

/-- The outputs of one iteration of `loop()`: the servo hardware calls (angle
given to `servo3.setAngle`, paired with the 20 ms `delay` that follows each),
and the two motor duties `(M1, M2)`. -/
structure LoopOutput where
  servoCalls : List (ℚ × Nat)
  m1Duty : Int
  m2Duty : Int

/-- One iteration of the source `loop()`: poll the three channels, assign
`servo_target = get_fork()`, run the blocking smoothing loop when `fork_new`
is set (then clear it), and drive the wheels from the gated velocities. -/
def loopStep (s : RoverState) (inp : LoopInput) : RoverState × LoopOutput :=
  let rv := get_vel s.velCh inp.velMsg inp.now
  let ra := get_ang_vel s.angCh inp.angMsg inp.now
  let rf := get_fork s.forkCh inp.forkMsg
  let servoTarget := rf.2
  let smoothed : ForkState × Int × List (ℚ × Nat) :=
    if rf.1.forkNew then
      let r := smoothLoop s.currentServo servoTarget
      (⟨rf.1.pos, false⟩, r.1, r.2)
    else
      (rf.1, s.currentServo, [])
  let wheels := vels_drive_wheels (rv.2 : ℚ) (ra.2 : ℚ)
  (⟨rv.1, ra.1, smoothed.1, servoTarget, smoothed.2.1⟩,
   ⟨smoothed.2.2, wheels.1, wheels.2⟩)

/-- The initial values of the globals when `loop()` first runs:
`_get_vel_vel = 0; _get_vel_time = 0; _get_ang_vel = 0; _get_ang_time = 0;
_get_fork_pos = 0; fork_new = false; servo_target = FORK_MIN;
current_servo = FORK_MIN;`. -/
def initState : RoverState := ⟨⟨0, 0⟩, ⟨0, 0⟩, ⟨0, false⟩, FORK_MIN, FORK_MIN⟩

/-- Iterating `loop()` over a sequence of per-iteration inputs. -/
def runLoop (s : RoverState) (inps : List LoopInput) : RoverState :=
  inps.foldl (fun st i => (loopStep st i).1) s

/-- Repeatedly polling one velocity channel with no message available,
collecting the returned values. -/
def velPollRun (s : VelChannel) (ns : List Nat) : VelChannel × List Int :=
  match ns with
  | [] => (s, [])
  | n :: rest =>
    let r := get_vel s none n
    let rr := velPollRun r.1 rest
    (rr.1, r.2 :: rr.2)

/-- Repeatedly polling the fork channel, collecting the returned values. -/
def forkPollRun (s : ForkState) (msgs : List (Option ℚ)) :
    ForkState × List Int :=
  match msgs with
  | [] => (s, [])
  | m :: rest =>
    let r := get_fork s m
    let rr := forkPollRun r.1 rest
    (rr.1, r.2 :: rr.2)

/-! ### Basic lemmas about the embedded operations -/

lemma truncToInt_intCast (n : Int) : truncToInt ((n : ℚ)) = n := by
  unfold truncToInt
  split
  · exact Int.floor_intCast n
  · exact Int.ceil_intCast n

lemma le_setServo (q : ℚ) : (128 : ℚ) ≤ setServo q := by
  simp only [setServo, FORK_MIN, FORK_MAX]
  push_cast
  exact le_max_left _ _

lemma setServo_le (q : ℚ) : setServo q ≤ 180 := by
  simp only [setServo, FORK_MIN, FORK_MAX]
  push_cast
  exact max_le (by norm_num) (min_le_right _ _)

lemma setServo_eq_self {q : ℚ} (h1 : (128 : ℚ) ≤ q) (h2 : q ≤ 180) :
    setServo q = q := by
  simp only [setServo, FORK_MIN, FORK_MAX]
  push_cast
  rw [min_eq_left h2, max_eq_right h1]

/-! ### Unfolding equations of the smoothing loop -/

lemma smoothLoop_lt {c t : Int} (h : c < t) :
    smoothLoop c t =
      ((smoothLoop (c + 1) t).1,
        (setServo ((c + 1 : Int) : ℚ), 20) :: (smoothLoop (c + 1) t).2) := by
  rw [smoothLoop, dif_pos h]

lemma smoothLoop_gt {c t : Int} (h : t < c) :
    smoothLoop c t =
      ((smoothLoop (c - 1) t).1,
        (setServo ((c - 1 : Int) : ℚ), 20) :: (smoothLoop (c - 1) t).2) := by
  rw [smoothLoop, dif_neg (by omega : ¬ c < t), dif_pos h]

lemma smoothLoop_self (c : Int) : smoothLoop c c = (c, []) := by
  rw [smoothLoop, dif_neg (lt_irrefl c), dif_neg (lt_irrefl c)]

/-- The servo position reached after the i-th iteration of the smoothing
loop: one unit per step in the direction of the target. -/
def smoothPos (c t : Int) (i : Nat) : Int :=
  if c ≤ t then c + 1 + (i : Int) else c - 1 - (i : Int)

lemma smoothLoop_trace : ∀ (n : Nat) (c t : Int), (t - c).natAbs = n →
    (smoothLoop c t).1 = t ∧
    (smoothLoop c t).2 =
      (List.range n).map (fun i => (setServo ((smoothPos c t i : Int) : ℚ), 20)) := by
  intro n
  induction n with
  | zero =>
    intro c t hn
    have hct : c = t := by omega
    subst hct
    simp [smoothLoop_self]
  | succ m ih =>
    intro c t hn
    rcases lt_trichotomy c t with hlt | heq | hgt
    · obtain ⟨ih1, ih2⟩ := ih (c + 1) t (by omega)
      rw [smoothLoop_lt hlt]
      refine ⟨ih1, ?_⟩
      dsimp only
      rw [ih2, List.range_succ_eq_map, List.map_cons, List.map_map]
      congr 1
      · have h0 : smoothPos c t 0 = c + 1 := by
          simp [smoothPos, if_pos hlt.le]
        rw [h0]
      · refine List.map_congr_left ?_
        intro a _
        have harg : smoothPos (c + 1) t a = smoothPos c t (a + 1) := by
          simp only [smoothPos, if_pos (by omega : c + 1 ≤ t),
            if_pos (by omega : c ≤ t)]
          push_cast
          ring
        simp only [Function.comp_apply, harg]
    · omega
    · obtain ⟨ih1, ih2⟩ := ih (c - 1) t (by omega)
      rw [smoothLoop_gt hgt]
      refine ⟨ih1, ?_⟩
      dsimp only
      rw [ih2, List.range_succ_eq_map, List.map_cons, List.map_map]
      congr 1
      · have h0 : smoothPos c t 0 = c - 1 := by
          simp [smoothPos, if_neg (by omega : ¬ c ≤ t)]
        rw [h0]
      · refine List.map_congr_left ?_
        intro a ha
        rw [List.mem_range] at ha
        have harg : smoothPos (c - 1) t a = smoothPos c t (a + 1) := by
          simp only [smoothPos, if_neg (by omega : ¬ c - 1 ≤ t),
            if_neg (by omega : ¬ c ≤ t)]
          push_cast
          ring
        simp only [Function.comp_apply, harg]

lemma smoothLoop_fst (c t : Int) : (smoothLoop c t).1 = t :=
  (smoothLoop_trace _ c t rfl).1

lemma smoothLoop_snd (c t : Int) :
    (smoothLoop c t).2 =
      (List.range (t - c).natAbs).map
        (fun i => (setServo ((smoothPos c t i : Int) : ℚ), 20)) :=
  (smoothLoop_trace _ c t rfl).2

lemma smoothLoop_length (c t : Int) :
    (smoothLoop c t).2.length = (t - c).natAbs := by
  rw [smoothLoop_snd]
  simp

lemma smoothLoop_get (c t : Int) (i : Nat) (h : i < (smoothLoop c t).2.length) :
    (smoothLoop c t).2.get ⟨i, h⟩ =
      (setServo ((smoothPos c t i : Int) : ℚ), 20) := by
  simp [smoothLoop_snd, List.get_eq_getElem]

lemma smoothLoop_mem {c t : Int} {p : ℚ × Nat} (hp : p ∈ (smoothLoop c t).2) :
    (∃ q, p.1 = setServo q) ∧ p.2 = 20 := by
  rw [smoothLoop_snd] at hp
  simp only [List.mem_map, List.mem_range] at hp
  obtain ⟨i, _, rfl⟩ := hp
  exact ⟨⟨_, rfl⟩, rfl⟩

/-! ### The rational-typed loop agrees with the integer-typed loop -/

lemma smoothLoopQ_int : ∀ (n : Nat) (c t : Int), (t - c).natAbs = n →
    smoothLoopQ n (c : ℚ) (t : ℚ) = some ((t : ℚ), (smoothLoop c t).2) := by
  intro n
  induction n with
  | zero =>
    intro c t hn
    have hct : c = t := by omega
    subst hct
    simp [smoothLoopQ, smoothLoop_self]
  | succ m ih =>
    intro c t hn
    have hne : c ≠ t := by omega
    have hneQ : (c : ℚ) ≠ (t : ℚ) := by
      intro h
      exact hne (by exact_mod_cast h)
    rcases lt_trichotomy c t with hlt | heq | hgt
    · have hltQ : (c : ℚ) < (t : ℚ) := by exact_mod_cast hlt
      have hstep : ((c : ℚ) + 1) = ((c + 1 : Int) : ℚ) := by push_cast; ring
      rw [smoothLoopQ, if_neg hneQ]
      dsimp only
      rw [if_pos hltQ, hstep, ih (c + 1) t (by omega)]
      rw [smoothLoop_lt hlt]
    · exact absurd heq hne
    · have hgtQ : (t : ℚ) < (c : ℚ) := by exact_mod_cast hgt
      have hnltQ : ¬ (c : ℚ) < (t : ℚ) := not_lt.mpr hgtQ.le
      have hstep : ((c : ℚ) - 1) = ((c - 1 : Int) : ℚ) := by push_cast; ring
      rw [smoothLoopQ, if_neg hneQ]
      dsimp only
      rw [if_neg hnltQ, hstep, ih (c - 1) t (by omega)]
      rw [smoothLoop_gt hgt]

/-! ### Channel reader lemmas -/

lemma get_vel_some (s : VelChannel) (d : ℚ) (now : Nat) :
    get_vel s (some d) now = (⟨truncToInt d, now⟩, truncToInt d) := by
  simp [get_vel]

lemma get_vel_none (s : VelChannel) (now : Nat) :
    get_vel s none now =
      (if 500 < now - s.time then ⟨0, s.time⟩ else s,
       if 500 < now - s.time then 0 else s.vel) := by
  by_cases h : 500 < now - s.time <;> simp [get_vel, h]

lemma velPollRun_zero : ∀ (ns : List Nat) (s : VelChannel), s.vel = 0 →
    velPollRun s ns = (s, List.replicate ns.length 0) := by
  intro ns
  induction ns with
  | nil => intro s _; rfl
  | cons n rest ih =>
    intro s hs
    have hstate : (get_vel s none n).1 = s := by
      rw [get_vel_none]
      cases s with
      | mk v tm =>
        simp only at hs
        subst hs
        split <;> rfl
    have hval : (get_vel s none n).2 = 0 := by
      rw [get_vel_none]
      dsimp only
      split <;> simp [hs]
    show ((velPollRun (get_vel s none n).1 rest).1,
      (get_vel s none n).2 :: (velPollRun (get_vel s none n).1 rest).2) = _
    rw [hstate, hval, ih s hs]
    rfl

lemma get_fork_some (s : ForkState) (d : ℚ) :
    get_fork s (some d) = (⟨truncToInt d, true⟩, truncToInt d) := rfl

lemma get_fork_none (s : ForkState) : get_fork s none = (s, s.pos) := rfl

lemma forkPollRun_none : ∀ (n : Nat) (s : ForkState),
    forkPollRun s (List.replicate n none) = (s, List.replicate n s.pos) := by
  intro n
  induction n with
  | zero => intro s; rfl
  | succ m ih =>
    intro s
    show ((forkPollRun (get_fork s none).1 (List.replicate m none)).1,
      (get_fork s none).2 ::
        (forkPollRun (get_fork s none).1 (List.replicate m none)).2) = _
    rw [get_fork_none]
    dsimp only
    rw [ih s]
    rfl

/-! ### Unfolding lemmas for one control-loop iteration -/

lemma loopStep_fork_some (s : RoverState) (vm am : Option ℚ) (d : ℚ)
    (now : Nat) :
    loopStep s ⟨vm, am, some d, now⟩ =
      (⟨(get_vel s.velCh vm now).1, (get_ang_vel s.angCh am now).1,
        ⟨truncToInt d, false⟩, truncToInt d,
        (smoothLoop s.currentServo (truncToInt d)).1⟩,
       ⟨(smoothLoop s.currentServo (truncToInt d)).2,
        (vels_drive_wheels ((get_vel s.velCh vm now).2 : ℚ)
          ((get_ang_vel s.angCh am now).2 : ℚ)).1,
        (vels_drive_wheels ((get_vel s.velCh vm now).2 : ℚ)
          ((get_ang_vel s.angCh am now).2 : ℚ)).2⟩) := rfl

lemma loopStep_fork_none (s : RoverState) (vm am : Option ℚ) (now : Nat)
    (h : s.forkCh.forkNew = false) :
    loopStep s ⟨vm, am, none, now⟩ =
      (⟨(get_vel s.velCh vm now).1, (get_ang_vel s.angCh am now).1,
        s.forkCh, s.forkCh.pos, s.currentServo⟩,
       ⟨[],
        (vels_drive_wheels ((get_vel s.velCh vm now).2 : ℚ)
          ((get_ang_vel s.angCh am now).2 : ℚ)).1,
        (vels_drive_wheels ((get_vel s.velCh vm now).2 : ℚ)
          ((get_ang_vel s.angCh am now).2 : ℚ)).2⟩) := by
  simp [loopStep, get_fork, h]

lemma loopStep_none_pending (s : RoverState) (vm am : Option ℚ) (now : Nat)
    (h : s.forkCh.forkNew = true) :
    loopStep s ⟨vm, am, none, now⟩ =
      (⟨(get_vel s.velCh vm now).1, (get_ang_vel s.angCh am now).1,
        ⟨s.forkCh.pos, false⟩, s.forkCh.pos,
        (smoothLoop s.currentServo s.forkCh.pos).1⟩,
       ⟨(smoothLoop s.currentServo s.forkCh.pos).2,
        (vels_drive_wheels ((get_vel s.velCh vm now).2 : ℚ)
          ((get_ang_vel s.angCh am now).2 : ℚ)).1,
        (vels_drive_wheels ((get_vel s.velCh vm now).2 : ℚ)
          ((get_ang_vel s.angCh am now).2 : ℚ)).2⟩) := by
  simp [loopStep, get_fork, h]

lemma loopStep_servoCalls (s : RoverState) (inp : LoopInput) :
    (loopStep s inp).2.servoCalls = [] ∨
    ∃ t : Int, (loopStep s inp).2.servoCalls = (smoothLoop s.currentServo t).2 := by
  obtain ⟨vm, am, fm, now⟩ := inp
  cases fm with
  | some d =>
    right
    exact ⟨truncToInt d, by rw [loopStep_fork_some]⟩
  | none =>
    cases h : s.forkCh.forkNew with
    | false =>
      left
      rw [loopStep_fork_none s vm am now h]
    | true =>
      right
      exact ⟨s.forkCh.pos, by rw [loopStep_none_pending s vm am now h]⟩

/-! ### Per-call characterisation of the smoothing trace -/

lemma smoothLoop_get_up {c t : Int} (hct : c ≤ t) (hc : (128 : Int) ≤ c)
    (ht : t ≤ 180) (i : Nat) (h : i < (smoothLoop c t).2.length) :
    ((smoothLoop c t).2.get ⟨i, h⟩).1 = ((c + 1 + (i : Int) : Int) : ℚ) := by
  have hlen := smoothLoop_length c t
  rw [smoothLoop_get]
  dsimp only
  simp only [smoothPos, if_pos hct]
  apply setServo_eq_self
  · exact_mod_cast (by omega : (128 : Int) ≤ c + 1 + (i : Int))
  · exact_mod_cast (by omega : c + 1 + (i : Int) ≤ (180 : Int))

lemma smoothLoop_get_down {c t : Int} (hct : t ≤ c) (hc : c ≤ (180 : Int))
    (ht : (128 : Int) ≤ t) (i : Nat) (h : i < (smoothLoop c t).2.length) :
    ((smoothLoop c t).2.get ⟨i, h⟩).1 = ((c - 1 - (i : Int) : Int) : ℚ) := by
  have hlen := smoothLoop_length c t
  rcases eq_or_lt_of_le hct with heq | hlt
  · omega
  · rw [smoothLoop_get]
    dsimp only
    simp only [smoothPos, if_neg (by omega : ¬ c ≤ t)]
    apply setServo_eq_self
    · exact_mod_cast (by omega : (128 : Int) ≤ c - 1 - (i : Int))
    · exact_mod_cast (by omega : c - 1 - (i : Int) ≤ (180 : Int))

lemma truncToInt_ofNat (n : Nat) [n.AtLeastTwo] :
    truncToInt (OfNat.ofNat n : ℚ) = OfNat.ofNat n := by
  rw [show (OfNat.ofNat n : ℚ) = ((OfNat.ofNat n : Int) : ℚ) by push_cast; rfl,
    truncToInt_intCast]

lemma runLoop_cons (s : RoverState) (i : LoopInput) (rest : List LoopInput) :
    runLoop s (i :: rest) = runLoop (loopStep s i).1 rest := rfl

lemma runLoop_no_fork : ∀ (inps : List LoopInput) (s : RoverState),
    (∀ i ∈ inps, i.forkMsg = none) → s.forkCh.forkNew = false →
    (runLoop s inps).forkCh = s.forkCh ∧
    (runLoop s inps).currentServo = s.currentServo := by
  intro inps
  induction inps with
  | nil =>
    intro s _ _
    exact ⟨rfl, rfl⟩
  | cons i rest ih =>
    intro s hmsgs hfn
    obtain ⟨vm, am, fm, now⟩ := i
    have hi : fm = none := hmsgs _ (List.mem_cons_self _ _)
    subst hi
    rw [runLoop_cons, loopStep_fork_none s vm am now hfn]
    exact ih _ (fun j hj => hmsgs j (List.mem_cons_of_mem _ hj)) hfn

/-! ### Claim theorems -/

/-- C2: the kinematic mapper computes
`wheel_left = (2/9)*linear_v - (17/18)*angular_v` and
`wheel_right = (2/9)*linear_v + (17/18)*angular_v` (so `(9,0) ↦ (2,2)` and
`(0,18/17) ↦ (-1,1)`); both outputs are multiplied by the fixed gain 10
before being handed to the motor-output collaborator, and the value
dispatched to the physical right motor channel (M1) is sign-inverted at the
driver boundary while the left (M2) is passed through unchanged. -/
theorem c2_kinematic_mapper :
    (∀ lin_v ang_v : ℚ,
        wheel_l lin_v ang_v = (2 / 9) * lin_v - (17 / 18) * ang_v ∧
        wheel_r lin_v ang_v = (2 / 9) * lin_v + (17 / 18) * ang_v ∧
        vels_drive_wheels lin_v ang_v =
          (-(truncToInt (wheel_r lin_v ang_v * 10)),
            truncToInt (wheel_l lin_v ang_v * 10))) ∧
    (wheel_l 9 0 = 2 ∧ wheel_r 9 0 = 2) ∧
    (wheel_l 0 (18 / 17) = -1 ∧ wheel_r 0 (18 / 17) = 1) := by
  refine ⟨fun lv av => ⟨?_, ?_, rfl⟩, ⟨?_, ?_⟩, ⟨?_, ?_⟩⟩ <;>
    simp only [wheel_l, wheel_r] <;> norm_num <;> ring

/-- C6 counterexample: the claimed identity
`wheel_left + wheel_right == (34/18)*angular_v*2` fails at
`(linear_v, angular_v) = (9, 0)`, where the sum is `4` but the claimed
right-hand side is `0`. -/
theorem c6_counterexample :
    ¬ (wheel_l 9 0 + wheel_r 9 0 = (34 / 18) * 0 * 2) := by
  norm_num [wheel_l, wheel_r]

/-- C6 (amended): for all `linear_v` and `angular_v`, the kinematic mapper's
outputs satisfy `wheel_right - wheel_left == (17/18)*angular_v*2` (the sum,
by contrast, equals `(4/9)*linear_v`). -/
theorem c6_amended_difference_identity :
    ∀ lin_v ang_v : ℚ,
      wheel_r lin_v ang_v - wheel_l lin_v ang_v = (17 / 18) * ang_v * 2 ∧
      wheel_l lin_v ang_v + wheel_r lin_v ang_v = (4 / 9) * lin_v := by
  intro lv av
  constructor <;> simp only [wheel_l, wheel_r] <;> ring

/-- C5 counterexample: a received command decoding to the double `150.5`
is not exposed as `150.5`: both the fork channel and the velocity channel
store the decoded value into an `int` global, so the exposed value is `150`. -/
theorem c5_counterexample :
    (((get_fork ⟨0, false⟩ (some (301 / 2))).2 : ℚ) ≠ 301 / 2) ∧
    (((get_vel ⟨0, 0⟩ (some (301 / 2)) 0).2 : ℚ) ≠ 301 / 2) := by
  have htr : truncToInt ((301 : ℚ) / 2) = 150 := by
    rw [truncToInt, if_pos (by norm_num : (0 : ℚ) ≤ 301 / 2)]
    rw [Int.floor_eq_iff]
    constructor <;> norm_num
  rw [get_fork_some, get_vel_some]
  dsimp only
  rw [htr]
  norm_num

/-- C5 (amended): when a complete 8-byte message decoding to the double `d`
is available, the reader consumes it and stores `d` truncated toward zero
into its integer `latest_value` (updating `last_received_at` on the velocity
channels); the exposed value is that truncated integer, which equals the
decoded double only when `d` is integral.  With fewer than 8 bytes or no
client, nothing is consumed: the fork state is unchanged and the velocity
channel's receipt timestamp is unchanged. -/
theorem c5_amended_truncated_fidelity :
    (∀ (s : VelChannel) (d : ℚ) (now : Nat),
        get_vel s (some d) now = (⟨truncToInt d, now⟩, truncToInt d)) ∧
    (∀ (s : ForkState) (d : ℚ),
        get_fork s (some d) = (⟨truncToInt d, true⟩, truncToInt d)) ∧
    (∀ s : ForkState, get_fork s none = (s, s.pos)) ∧
    (∀ (s : VelChannel) (now : Nat), (get_vel s none now).1.time = s.time) ∧
    (∀ n : Int, truncToInt ((n : Int) : ℚ) = n) := by
  refine ⟨get_vel_some, get_fork_some, get_fork_none, ?_, truncToInt_intCast⟩
  intro s now
  rw [get_vel_none]
  dsimp only
  split <;> rfl

/-- C7: the fork/actuator channel has no staleness default: polling it any
number of times with no message returns the held position every time and
leaves the state unchanged, regardless of elapsed time (`get_fork` does not
consult `millis()` at all), until a new fork command replaces the held
position. -/
theorem c7_fork_timeout_exemption :
    (∀ (s : ForkState) (n : Nat),
        forkPollRun s (List.replicate n none) = (s, List.replicate n s.pos)) ∧
    (∀ (s : ForkState) (d : ℚ),
        (get_fork s (some d)).1.pos = truncToInt d ∧
        (get_fork s (some d)).2 = truncToInt d) :=
  ⟨fun s n => forkPollRun_none n s, fun _ _ => ⟨rfl, rfl⟩⟩

/-- C9 (implicit): every fork target exposed by `get_fork` is the decoded
double truncated toward zero to an integer, and for any integer current
position `c` and integer target `t` the floating-point smoothing loop
reaches its exit test exactly: with `|t - c|` iterations of fuel the
rational-state loop `smoothLoopQ` terminates (`some`), ending at exactly
`t`, with one hardware call per unit of distance. -/
theorem c9_integral_targets_and_termination :
    (∀ (s : ForkState) (d : ℚ), (get_fork s (some d)).2 = truncToInt d) ∧
    (∀ c t : Int,
        smoothLoopQ (t - c).natAbs (c : ℚ) (t : ℚ) =
          some ((t : ℚ), (smoothLoop c t).2) ∧
        (smoothLoop c t).2.length = (t - c).natAbs) :=
  ⟨fun _ _ => rfl,
   fun c t => ⟨smoothLoopQ_int _ c t rfl, smoothLoop_length c t⟩⟩

/-- C3: for each velocity channel, polling with no message returns the stored
value when `now - last_received_at ≤ 500` and `0` when `now - last_received_at
> 500` (stored value still reported at exactly 500 ms, `0` at 501 ms); the
check is re-evaluated on every poll, so a channel that goes stale and stays
silent yields `0` on every subsequent poll; `get_ang_vel` is the same gate. -/
theorem c3_liveness_gate :
    (∀ (s : VelChannel) (now : Nat),
        (get_vel s none now).2 = if 500 < now - s.time then 0 else s.vel) ∧
    (∀ s : VelChannel, (get_vel s none (s.time + 500)).2 = s.vel) ∧
    (∀ s : VelChannel, (get_vel s none (s.time + 501)).2 = 0) ∧
    (∀ (s : VelChannel) (now : Nat) (ns : List Nat), 500 < now - s.time →
        (get_vel s none now).2 = 0 ∧
        (velPollRun (get_vel s none now).1 ns).2 = List.replicate ns.length 0) ∧
    get_ang_vel = get_vel := by
  have hval : ∀ (s : VelChannel) (now : Nat),
      (get_vel s none now).2 = if 500 < now - s.time then 0 else s.vel := by
    intro s now
    rw [get_vel_none]
  refine ⟨hval, ?_, ?_, ?_, rfl⟩
  · intro s
    rw [hval, if_neg (by omega : ¬ 500 < s.time + 500 - s.time)]
  · intro s
    rw [hval, if_pos (by omega : 500 < s.time + 501 - s.time)]
  · intro s now ns hstale
    refine ⟨by rw [hval, if_pos hstale], ?_⟩
    have hst : (get_vel s none now).1 = ⟨0, s.time⟩ := by
      rw [get_vel_none]
      dsimp only
      rw [if_pos hstale]
    rw [hst, velPollRun_zero ns ⟨0, s.time⟩ rfl]

/-- Witness for C3: a channel whose last receipt was at time 0, polled at
501 ms and then silent at 600 ms and 10000 ms, reports 0 every time. -/
theorem c3_liveness_gate_witness :
    500 < 501 - (VelChannel.mk 7 0).time ∧
    ((get_vel ⟨7, 0⟩ none 501).2 = 0 ∧
     (velPollRun (get_vel ⟨7, 0⟩ none 501).1 [600, 10000]).2 =
       List.replicate ([600, 10000] : List Nat).length 0) :=
  ⟨by decide, c3_liveness_gate.2.2.2.1 ⟨7, 0⟩ 501 [600, 10000] (by decide)⟩

/-- C4 counterexample: a fork command decoding to `200.0` (outside
`[128,180]`) is NOT clamped before the ramp: after the iteration both
`servo_target` and `current_servo` equal `200 > FORK_MAX = 180`, violating
the claimed invariant. -/
theorem c4_counterexample :
    (loopStep initState ⟨none, none, some 200, 0⟩).1.servoTarget = 200 ∧
    (loopStep initState ⟨none, none, some 200, 0⟩).1.currentServo = 200 ∧
    ¬ ((loopStep initState ⟨none, none, some 200, 0⟩).1.servoTarget ≤ FORK_MAX) ∧
    ¬ ((loopStep initState ⟨none, none, some 200, 0⟩).1.currentServo ≤ FORK_MAX) := by
  have h200 : truncToInt ((200 : ℚ)) = (200 : Int) := truncToInt_ofNat 200
  have hst : (loopStep initState ⟨none, none, some 200, 0⟩).1.servoTarget = 200 := by
    rw [loopStep_fork_some]
    exact h200
  have hcs : (loopStep initState ⟨none, none, some 200, 0⟩).1.currentServo = 200 := by
    rw [loopStep_fork_some]
    dsimp only
    rw [h200]
    exact smoothLoop_fst _ _
  refine ⟨hst, hcs, ?_, ?_⟩
  · rw [hst]
    decide
  · rw [hcs]
    decide

/-- C4 (amended): `current_position` and `target_position` are NOT kept
within `[128,180]` — an out-of-range target is stored unclamped and the ramp
follows it (see the counterexample).  What does hold is the hardware-boundary
clamp: every angle handed to `servo3.setAngle` during any loop iteration lies
within `[FORK_MIN=128, FORK_MAX=180]`, because `setServo` clamps each
commanded angle, so the physical actuator never moves past the clamp
bounds. -/
theorem c4_amended_hardware_clamp (s : RoverState) (inp : LoopInput)
    (p : ℚ × Nat) (hp : p ∈ (loopStep s inp).2.servoCalls) :
    (128 : ℚ) ≤ p.1 ∧ p.1 ≤ 180 ∧ p.2 = 20 := by
  rcases loopStep_servoCalls s inp with hnil | ⟨t, hcalls⟩
  · rw [hnil] at hp
    exact absurd hp (List.not_mem_nil p)
  · rw [hcalls] at hp
    obtain ⟨⟨q, hq⟩, hpause⟩ := smoothLoop_mem hp
    rw [hq]
    exact ⟨le_setServo q, setServo_le q, hpause⟩

/-- Witness for the amended C4: the single hardware call of a fork move from
128 to 129 is the in-bounds angle 129, followed by a 20 ms pause. -/
theorem c4_amended_hardware_clamp_witness :
    ((129 : ℚ), 20) ∈ (loopStep initState ⟨none, none, some 129, 0⟩).2.servoCalls ∧
    ((128 : ℚ) ≤ 129 ∧ (129 : ℚ) ≤ 180 ∧ (20 : Nat) = 20) := by
  have h129 : truncToInt ((129 : ℚ)) = (129 : Int) := truncToInt_ofNat 129
  have hmem : ((129 : ℚ), 20) ∈
      (loopStep initState ⟨none, none, some 129, 0⟩).2.servoCalls := by
    have hcalls : (loopStep initState ⟨none, none, some 129, 0⟩).2.servoCalls
        = (smoothLoop 128 129).2 := by
      rw [loopStep_fork_some, h129]
      rfl
    rw [hcalls, smoothLoop_snd,
      show ((129 : Int) - 128).natAbs = 1 from by decide,
      show List.range 1 = [0] from rfl,
      List.map_cons, List.map_nil]
    have hpos : smoothPos 128 129 0 = 129 := by
      simp [smoothPos]
    rw [hpos, setServo_eq_self (by norm_num) (by norm_num),
      show (((129 : Int)) : ℚ) = (129 : ℚ) from by norm_num]
    exact List.mem_singleton.mpr rfl
  exact ⟨hmem, c4_amended_hardware_clamp initState ⟨none, none, some 129, 0⟩
    ((129 : ℚ), 20) hmem⟩

/-- C8: when a pending fork target arrives equal to the current position, the
smoother performs zero steps and zero hardware calls, leaves
`current_position` unchanged (and `target_position` equal to the arrived
target), and clears the pending-update flag. -/
theorem c8_smoother_idempotence (s : RoverState) (vm am : Option ℚ) (d : ℚ)
    (now : Nat) (h : truncToInt d = s.currentServo) :
    (loopStep s ⟨vm, am, some d, now⟩).2.servoCalls = [] ∧
    (loopStep s ⟨vm, am, some d, now⟩).1.currentServo = s.currentServo ∧
    (loopStep s ⟨vm, am, some d, now⟩).1.servoTarget = truncToInt d ∧
    (loopStep s ⟨vm, am, some d, now⟩).1.forkCh.forkNew = false := by
  rw [loopStep_fork_some, h]
  simp [smoothLoop_self]

/-- Witness for C8: a fork command decoding to `128.0` while
`current_servo = 128` produces no hardware calls and clears the flag. -/
theorem c8_smoother_idempotence_witness :
    truncToInt ((128 : ℚ)) = initState.currentServo ∧
    ((loopStep initState ⟨none, none, some 128, 0⟩).2.servoCalls = [] ∧
     (loopStep initState ⟨none, none, some 128, 0⟩).1.currentServo =
       initState.currentServo ∧
     (loopStep initState ⟨none, none, some 128, 0⟩).1.servoTarget =
       truncToInt ((128 : ℚ)) ∧
     (loopStep initState ⟨none, none, some 128, 0⟩).1.forkCh.forkNew = false) := by
  have h : truncToInt ((128 : ℚ)) = initState.currentServo := by
    rw [truncToInt_ofNat]
    rfl
  exact ⟨h, c8_smoother_idempotence initState none none 128 0 h⟩

/-- C10 (implicit): the smoothing loop is guarded by `fork_new`, which starts
false and is set only when a complete 8-byte fork message is decoded: with no
fork message an iteration performs no servo motion (even though
`servo_target` is assigned the channel's stored value, initially 0, each
iteration), and from the initial state any run without fork messages keeps
`current_servo = FORK_MIN` with the guard still false and the stored fork
position still 0. -/
theorem c10_guard_prevents_motion :
    (∀ (s : RoverState) (vm am : Option ℚ) (now : Nat),
        s.forkCh.forkNew = false →
        (loopStep s ⟨vm, am, none, now⟩).2.servoCalls = [] ∧
        (loopStep s ⟨vm, am, none, now⟩).1.currentServo = s.currentServo ∧
        (loopStep s ⟨vm, am, none, now⟩).1.servoTarget = s.forkCh.pos ∧
        (loopStep s ⟨vm, am, none, now⟩).1.forkCh = s.forkCh) ∧
    (∀ inps : List LoopInput, (∀ i ∈ inps, i.forkMsg = none) →
        (runLoop initState inps).currentServo = FORK_MIN ∧
        (runLoop initState inps).forkCh.forkNew = false ∧
        (runLoop initState inps).forkCh.pos = 0) := by
  constructor
  · intro s vm am now h
    rw [loopStep_fork_none s vm am now h]
    exact ⟨rfl, rfl, rfl, rfl⟩
  · intro inps hmsgs
    obtain ⟨hfork, hcur⟩ := runLoop_no_fork inps initState hmsgs rfl
    rw [hfork, hcur]
    exact ⟨rfl, rfl, rfl⟩

/-- Witness for C10: two iterations with velocity traffic but no fork
messages leave the servo at `FORK_MIN` with the guard still false. -/
theorem c10_guard_prevents_motion_witness :
    (∀ i ∈ ([⟨none, none, none, 0⟩, ⟨some 2, some 1, none, 700⟩] :
        List LoopInput), i.forkMsg = none) ∧
    ((runLoop initState
        [⟨none, none, none, 0⟩, ⟨some 2, some 1, none, 700⟩]).currentServo =
          FORK_MIN ∧
     (runLoop initState
        [⟨none, none, none, 0⟩, ⟨some 2, some 1, none, 700⟩]).forkCh.forkNew =
          false ∧
     (runLoop initState
        [⟨none, none, none, 0⟩, ⟨some 2, some 1, none, 700⟩]).forkCh.pos = 0) := by
  have hmsgs : ∀ i ∈ ([⟨none, none, none, 0⟩, ⟨some 2, some 1, none, 700⟩] :
      List LoopInput), i.forkMsg = none := by
    intro i hi
    rcases hi with _ | ⟨_, hi⟩
    · rfl
    · rcases hi with _ | ⟨_, hi⟩
      · rfl
      · exact absurd hi (List.not_mem_nil i)
  exact ⟨hmsgs, c10_guard_prevents_motion.2 _ hmsgs⟩

/-- C1: for any integer target and current position within `[128,180]`, the
smoothing loop takes exactly `|target - current|` steps, each step moving by
exactly one unit toward the target followed by a 20 ms pause, terminating
with the position exactly at the target; in particular a fork command
decoding to `150.0` while `current_servo = 128` produces exactly 22
sequential hardware calls with the strictly monotone angles `129..150`, each
followed by a 20 ms pause, ending with `current_servo = target` (Idle) and
`fork_new = false`. -/
theorem c1_smoother_convergence :
    (∀ c t : Int, FORK_MIN ≤ c → c ≤ FORK_MAX → FORK_MIN ≤ t → t ≤ FORK_MAX →
        (smoothLoop c t).2.length = (t - c).natAbs ∧
        (smoothLoop c t).1 = t ∧
        (∀ p ∈ (smoothLoop c t).2, p.2 = 20) ∧
        (c ≤ t → ∀ (i : Nat) (h : i < (smoothLoop c t).2.length),
            ((smoothLoop c t).2.get ⟨i, h⟩).1 = ((c + 1 + (i : Int) : Int) : ℚ)) ∧
        (t ≤ c → ∀ (i : Nat) (h : i < (smoothLoop c t).2.length),
            ((smoothLoop c t).2.get ⟨i, h⟩).1 = ((c - 1 - (i : Int) : Int) : ℚ))) ∧
    ((loopStep initState ⟨none, none, some 150, 0⟩).2.servoCalls.length = 22 ∧
     (loopStep initState ⟨none, none, some 150, 0⟩).2.servoCalls.map Prod.fst =
       (List.range 22).map (fun i : Nat => ((129 + (i : Int) : Int) : ℚ)) ∧
     (∀ p ∈ (loopStep initState ⟨none, none, some 150, 0⟩).2.servoCalls,
        p.2 = 20) ∧
     (loopStep initState ⟨none, none, some 150, 0⟩).1.forkCh.forkNew = false ∧
     (loopStep initState ⟨none, none, some 150, 0⟩).1.currentServo = 150 ∧
     (loopStep initState ⟨none, none, some 150, 0⟩).1.servoTarget = 150) := by
  constructor
  · intro c t hc1 hc2 ht1 ht2
    have hc1' : (128 : Int) ≤ c := hc1
    have hc2' : c ≤ (180 : Int) := hc2
    have ht1' : (128 : Int) ≤ t := ht1
    have ht2' : t ≤ (180 : Int) := ht2
    refine ⟨smoothLoop_length c t, smoothLoop_fst c t,
      fun p hp => (smoothLoop_mem hp).2, ?_, ?_⟩
    · intro hct i h
      exact smoothLoop_get_up hct hc1' ht2' i h
    · intro hct i h
      exact smoothLoop_get_down hct hc2' ht1' i h
  · have h150 : truncToInt ((150 : ℚ)) = (150 : Int) := truncToInt_ofNat 150
    have hcalls : (loopStep initState ⟨none, none, some 150, 0⟩).2.servoCalls
        = (smoothLoop 128 150).2 := by
      rw [loopStep_fork_some, h150]
      rfl
    have h22 : ((150 : Int) - 128).natAbs = 22 := by decide
    refine ⟨?_, ?_, ?_, ?_, ?_, ?_⟩
    · rw [hcalls, smoothLoop_length, h22]
    · rw [hcalls, smoothLoop_snd, h22, List.map_map]
      refine List.map_congr_left ?_
      intro a ha
      rw [List.mem_range] at ha
      show setServo ((smoothPos 128 150 a : Int) : ℚ) = ((129 + (a : Int) : Int) : ℚ)
      rw [show smoothPos 128 150 a = 129 + (a : Int) from by
        simp only [smoothPos, if_pos (by decide : (128 : Int) ≤ 150)]
        omega]
      apply setServo_eq_self
      · exact_mod_cast (by omega : (128 : Int) ≤ 129 + (a : Int))
      · exact_mod_cast (by omega : 129 + (a : Int) ≤ (180 : Int))
    · intro p hp
      rw [hcalls] at hp
      exact (smoothLoop_mem hp).2
    · rw [loopStep_fork_some]
    · rw [loopStep_fork_some]
      dsimp only
      rw [h150]
      exact smoothLoop_fst _ _
    · rw [loopStep_fork_some]
      exact h150

/-- Witness for C1: the in-range pair `current = 130`, `target = 140`. -/
theorem c1_smoother_convergence_witness :
    (FORK_MIN ≤ (130 : Int) ∧ (130 : Int) ≤ FORK_MAX ∧
     FORK_MIN ≤ (140 : Int) ∧ (140 : Int) ≤ FORK_MAX) ∧
    ((smoothLoop 130 140).2.length = ((140 : Int) - 130).natAbs ∧
     (smoothLoop 130 140).1 = 140 ∧
     (∀ p ∈ (smoothLoop 130 140).2, p.2 = 20) ∧
     ((130 : Int) ≤ 140 → ∀ (i : Nat) (h : i < (smoothLoop 130 140).2.length),
        ((smoothLoop 130 140).2.get ⟨i, h⟩).1 = ((130 + 1 + (i : Int) : Int) : ℚ)) ∧
     ((140 : Int) ≤ 130 → ∀ (i : Nat) (h : i < (smoothLoop 130 140).2.length),
        ((smoothLoop 130 140).2.get ⟨i, h⟩).1 = ((130 - 1 - (i : Int) : Int) : ℚ))) :=
  ⟨⟨by decide, by decide, by decide, by decide⟩,
   c1_smoother_convergence.1 130 140 (by decide) (by decide) (by decide)
     (by decide)⟩
